import Mathlib

/-!
Verification of the PanelConfigurator repository (src/main.py, src/analysis_module.py).

The Python code is shallowly embedded: floats become exact rationals `ℚ` (reals
`ℝ` where a fractional power forces them), `datetime.datetime` values become the
record `DT` of calendar fields, and Python `dict`s become insertion-ordered
association lists `List (key × value)` with unique keys.  Fallible operations
(Python expressions that can raise, such as an unguarded division) return
`Option`.
-/

namespace PC

/-! ### Association lists modelling Python dicts (insertion-ordered) -/

/-- Lookup in an association list; models `d[k]` / `d.get(k)` on a Python dict
whose items, in insertion order, are the list entries. -/
def alookup {α β : Type} [DecidableEq α] : List (α × β) → α → Option β
  | [], _ => none
  | (k, v) :: rest, k' => if k = k' then some v else alookup rest k'

/-- The key list of an association list (dict iteration order). -/
def keys {α β : Type} (m : List (α × β)) : List α := m.map Prod.fst

/-- Models `d[k] = d.get(k, 0) + v` on a dict: update in place if the key is
present (Python keeps the key's position), otherwise append at the end. -/
def dictAdd {α : Type} [DecidableEq α] : List (α × ℚ) → α → ℚ → List (α × ℚ)
  | [], k, v => [(k, v)]
  | (k', v') :: rest, k, v =>
      if k' = k then (k', v' + v) :: rest else (k', v') :: dictAdd rest k v

/-- Models `if k not in d: d[k] = 0.0` on a dict. -/
def ensureKey {α : Type} [DecidableEq α] (m : List (α × ℚ)) (k : α) : List (α × ℚ) :=
  if (alookup m k).isSome then m else m ++ [(k, 0)]

/-- Models `d[k] = v` on a dict: overwrite in place, else append at the end. -/
def dictSet {α β : Type} [DecidableEq α] : List (α × β) → α → β → List (α × β)
  | [], k, v => [(k, v)]
  | (k', v') :: rest, k, v =>
      if k' = k then (k, v) :: rest else (k', v') :: dictSet rest k v

/-- Models `d.setdefault(k, []).append(v)` i.e. the grouping idiom
`if k not in d: d[k] = []` followed by `d[k].append(v)`. -/
def dictAppend {α : Type} [DecidableEq α] : List (α × List ℚ) → α → ℚ → List (α × List ℚ)
  | [], k, v => [(k, [v])]
  | (k', l) :: rest, k, v =>
      if k' = k then (k', l ++ [v]) :: rest else (k', l) :: dictAppend rest k v

/-- Python division `a / b`: raises `ZeroDivisionError` when `b = 0`, modelled
as `none`. -/
def pydiv (a b : ℚ) : Option ℚ := if b = 0 then none else some (a / b)

/-! ### Timestamps -/

/-- A `datetime.datetime` value, reduced to the calendar fields the engine
reads (`year`, `month`, `day`, `hour`); minutes/seconds are always zero for the
hourly series handled here. -/
structure DT where
  year : Int
  month : Int
  day : Int
  hour : Int
deriving DecidableEq

/-- The method `t.date()`: the `(year, month, day)` triple. -/
def DT.date (t : DT) : Int × Int × Int := (t.year, t.month, t.day)

/-- The `(t.year, t.month)` key used for monthly grouping. -/
def ym (t : DT) : Int × Int := (t.year, t.month)

/-! ### C1: the objective function's constraint/penalty ladder

`npv_function` (src/main.py lines 184-291) computes `CapEX`, the production and
consumption series, the NPV and the whole-horizon self-sufficiency, and then
decides its return value in lines 274-291.  `npv_function_penalty` embeds that
decision ladder, taking the already-computed `npv` and `self_sufficiency`
together with the three truncated panel counts and the two constraint
parameters. -/

def npv_function_penalty (num_low_cost num_standard num_high_efficiency max_panels : Int)
    (min_self_sufficiency self_sufficiency npv : ℚ) : ℚ :=
  if num_low_cost + num_standard + num_high_efficiency > max_panels then 1000000
  else if self_sufficiency < min_self_sufficiency - 0.1 then 500000
  else if self_sufficiency < min_self_sufficiency - 0.05 then 450000
  else if self_sufficiency < min_self_sufficiency - 0.03 then 400000
  else if self_sufficiency < min_self_sufficiency - 0.02 then 350000
  else if self_sufficiency < min_self_sufficiency - 0.01 then 300000
  else if self_sufficiency < min_self_sufficiency then
    250000 + (min_self_sufficiency - self_sufficiency) * 1000000
  else -npv

/-- The amended C1 policy, written as the spec writes it (a deficit-keyed step
table, first match wins) but with the strict thresholds the code actually
implements: the deficit `d = minSelfSufficiency - selfSufficiency` selects the
fixed penalty for `d > 0.10`, `d > 0.05`, `d > 0.03`, `d > 0.02`, `d > 0.01`,
then the linear penalty for `0 < d ≤ 0.01`, and `-npv` otherwise. -/
def penaltyTableSpec (total_panels max_panels : Int) (min_ss ss npv : ℚ) : ℚ :=
  if total_panels > max_panels then 1000000
  else if min_ss - ss > 0.1 then 500000
  else if min_ss - ss > 0.05 then 450000
  else if min_ss - ss > 0.03 then 400000
  else if min_ss - ss > 0.02 then 350000
  else if min_ss - ss > 0.01 then 300000
  else if min_ss - ss > 0 then 250000 + (min_ss - ss) * 1000000
  else -npv

/-! ### C5: the sample aggregator -/

/-- One fetched row of the `Consumption` query: `(ApplianceIDREF, EpochTime,
Value)`.  Timestamps are modelled by their epoch value; the
`datetime.utcfromtimestamp` relabelling is injective and never inspected by the
aggregation logic. -/
structure SampleRow where
  appliance : Int
  epoch : Int
  value : ℚ
deriving DecidableEq

/-- The aggregated hourly entry built by `get_cons_by_constype`: appliance id,
consumer-type label, timestamp (epoch) and summed value. -/
structure Consumer where
  type_id : Int
  type : String
  time : Int
  val : ℚ
deriving DecidableEq

/-- The aggregation loop of `DatabaseManager.get_cons_by_constype` after the query (src/main.py lines
66-79, duplicated verbatim in src/analysis_module.py lines 52-65): walk the row
list in consecutive groups of six; each complete group yields one `Consumer`
whose id comes from the group's first row (`group[0][0]`), whose timestamp is
the group's sixth row's epoch (`group[5][1]`) and whose value is the sum of the
six row values; an incomplete trailing group breaks out of the loop. -/
def get_cons_by_constype (consumer : String) : List SampleRow → List Consumer
  | r1 :: r2 :: r3 :: r4 :: r5 :: r6 :: rest =>
      ⟨r1.appliance, consumer, r6.epoch,
        r1.value + r2.value + r3.value + r4.value + r5.value + r6.value⟩ ::
        get_cons_by_constype consumer rest
  | _ => []

/-! ### C3, C9: the financial evaluator

`calculate_npv` (src/main.py lines 164-181) uses the float expression
`(1 + r) ** ((t - 1) / 12)` with a fractional exponent, so this part of the
embedding lives in `ℝ` with `Real.rpow`. -/

/-- Lexicographic `≤` on `(year, month)` keys, as Python's `sorted` compares
tuples. -/
def ymLE (a b : Int × Int) : Bool :=
  decide (a.1 < b.1 ∨ (a.1 = b.1 ∧ a.2 ≤ b.2))

/-- The sorted month keys, `sorted(monthly_costs.keys())`. -/
def sortedMonths (monthly_costs : List ((Int × Int) × (ℝ × ℝ))) : List (Int × Int) :=
  (keys monthly_costs).mergeSort ymLE

/-- The discount divisor `(1 + r) ** ((t - 1) / 12)` applied to month index
`t`, a real power with fractional exponent. -/
noncomputable def discFactor (r : ℝ) (t : Nat) : ℝ := (1 + r) ^ (((t : ℝ) - 1) / 12)

/-- The `for t, year_month in enumerate(sorted_months, start=1)` loop of
`calculate_npv`: from month index `t` and accumulator `npv`, each month adds
`(G_t - OpEX/12) / (1+r) ** ((t-1)/12)` where `G_t` is that month's
`cost_without_panels - cost_with_panels`, and the running value is recorded
after each month. -/
noncomputable def npvLoop (monthly_costs : List ((Int × Int) × (ℝ × ℝ))) (OpEX r : ℝ) :
    List (Int × Int) → Nat → ℝ → ℝ × List ((Int × Int) × ℝ)
  | [], _, npv => (npv, [])
  | year_month :: rest, t, npv =>
      let cc := (alookup monthly_costs year_month).getD (0, 0)
      let G_t := cc.1 - cc.2
      let npv' := npv + (G_t - OpEX / 12) / discFactor r t
      let next := npvLoop monthly_costs OpEX r rest (t + 1) npv'
      (next.1, (year_month, npv') :: next.2)

/-- The function `calculate_npv` (src/main.py lines 164-181): `OpEX = 0.03 * CapEX`, the
accumulator starts at `-CapEX`, and the loop runs over the sorted month keys
with `t` enumerated from 1.  The horizon argument `Y` is kept from the source
signature although the source never reads it.  Returns the final NPV and the
per-month running trace `monthly_npv_values`. -/
noncomputable def calculate_npv (monthly_costs : List ((Int × Int) × (ℝ × ℝ)))
    (CapEX r : ℝ) (Y : Nat) : ℝ × List ((Int × Int) × ℝ) :=
  npvLoop monthly_costs (0.03 * CapEX) r (sortedMonths monthly_costs) 1 (-CapEX)

/-- The savings `costWithoutPV - costWithPV` recorded for a month key. -/
noncomputable def monthSavings (monthly_costs : List ((Int × Int) × (ℝ × ℝ)))
    (p : Int × Int) : ℝ :=
  ((alookup monthly_costs p).getD (0, 0)).1 - ((alookup monthly_costs p).getD (0, 0)).2

/-- The claim's `t`-th summand for `t = i + 1`: the month's savings minus the
monthly operating share `0.03·CapEX/12`, discounted by `(1+r)^((t-1)/12)`,
written with exponent `i/12`. -/
noncomputable def npvTerm (monthly_costs : List ((Int × Int) × (ℝ × ℝ)))
    (CapEX r : ℝ) (ks : List (Int × Int)) (i : Nat) : ℝ :=
  (monthSavings monthly_costs (ks.getD i (0, 0)) - 0.03 * CapEX / 12) /
    (1 + r) ^ ((i : ℝ) / 12)

/-! ### C4, C10: the monthly energy-balance calculator -/

/-- The amount one hour adds to its month's grid-energy bucket:
`(consumption - production)/1000` when `consumption > production`, else 0. -/
def gridContrib (consumption production : ℚ) : ℚ :=
  if consumption > production then (consumption - production) / 1000 else 0

/-- The amount one hour adds to its month's injected-energy bucket:
`(production - consumption)/1000` when `consumption ≤ production`, else 0. -/
def injContrib (consumption production : ℚ) : ℚ :=
  if consumption > production then 0 else (production - consumption) / 1000

/-- One iteration of the first loop of `calculate_monthly_costs` (src/main.py
lines 131-145): look up production for the hour (absent ⇒ 0), ensure the
month's keys exist in both bucket dicts, then add the deficit to the grid
bucket when `consumption > production` and otherwise the surplus to the
injected bucket. -/
def mcStep (hourly_production : List (DT × ℚ))
    (st : List ((Int × Int) × ℚ) × List ((Int × Int) × ℚ)) (tc : DT × ℚ) :
    List ((Int × Int) × ℚ) × List ((Int × Int) × ℚ) :=
  let production := (alookup hourly_production tc.1).getD 0
  let year_month := ym tc.1
  let e_grid := ensureKey st.1 year_month
  let e_injected := ensureKey st.2 year_month
  if tc.2 > production then
    (dictAdd e_grid year_month ((tc.2 - production) / 1000), e_injected)
  else
    (e_grid, dictAdd e_injected year_month ((production - tc.2) / 1000))

/-- The two bucket dicts `monthly_e_grid, monthly_e_injected` after the first
loop of `calculate_monthly_costs`. -/
def mcBuckets (hourly_production hourly_consumption : List (DT × ℚ)) :
    List ((Int × Int) × ℚ) × List ((Int × Int) × ℚ) :=
  hourly_consumption.foldl (mcStep hourly_production) ([], [])

/-- The comprehension `sum(hourly_consumption[time] for time in hourly_consumption if
(time.year, time.month) == year_month)`. -/
def monthConsSum (hourly_consumption : List (DT × ℚ)) (p : Int × Int) : ℚ :=
  (hourly_consumption.map (fun tc => if ym tc.1 = p then tc.2 else 0)).sum

/-- The record built for one month key in the second loop of
`calculate_monthly_costs`: `v` is that month's grid-bucket value, and the
injected-bucket value is looked up in the second bucket dict. -/
def mcRecord (hourly_production hourly_consumption : List (DT × ℚ))
    (c_grid c_DAM : ℚ) (k : Int × Int) (v : ℚ) : ℚ × ℚ :=
  (monthConsSum hourly_consumption k / 1000 * c_grid,
   v * c_grid -
     ((alookup (mcBuckets hourly_production hourly_consumption).2 k).getD 0) * c_DAM)

/-- The function `calculate_monthly_costs` (src/main.py lines 121-160): accumulate the two
monthly buckets over the consumption series, then for each month key (in the
grid dict's insertion order) record `cost_without_panels = Σ consumption/1000 ·
c_grid` and `cost_with_panels = e_grid · c_grid - e_injected · c_DAM`. -/
def calculate_monthly_costs (hourly_production hourly_consumption : List (DT × ℚ))
    (c_grid c_DAM : ℚ) : List ((Int × Int) × (ℚ × ℚ)) :=
  (mcBuckets hourly_production hourly_consumption).1.map (fun kv =>
    (kv.1, mcRecord hourly_production hourly_consumption c_grid c_DAM kv.1 kv.2))

/-- The total grid-energy a month accrues: the sum over all consumption hours
of that month of the per-hour grid contribution. -/
def gridTotal (prod cons : List (DT × ℚ)) (p : Int × Int) : ℚ :=
  (cons.map (fun tc =>
    if ym tc.1 = p then gridContrib tc.2 ((alookup prod tc.1).getD 0) else 0)).sum

/-- The total injected energy a month accrues: the sum over all consumption
hours of that month of the per-hour injection contribution. -/
def injTotal (prod cons : List (DT × ℚ)) (p : Int × Int) : ℚ :=
  (cons.map (fun tc =>
    if ym tc.1 = p then injContrib tc.2 ((alookup prod tc.1).getD 0) else 0)).sum

/-! ### C2, C7, C8: the daily indicator engine (src/analysis_module.py) -/

/-- The per-day grouping both indicator functions build: iterate the hourly
series in dict order and append each value to its calendar day's list. -/
def groupByDay (m : List (DT × ℚ)) : List ((Int × Int × Int) × List ℚ) :=
  m.foldl (fun g tv => dictAppend g tv.1.date tv.2) []

/-- The sub-series of one calendar day's hours, in series order. -/
def dayEntries (m : List (DT × ℚ)) (d : Int × Int × Int) : List (DT × ℚ) :=
  m.filter (fun tv => decide (tv.1.date = d))

/-- One calendar day's value list (what `groupByDay` stores under `d`). -/
def dayValues (m : List (DT × ℚ)) (d : Int × Int × Int) : List ℚ :=
  (dayEntries m d).map Prod.snd

/-- The function `calculate_self_consumption_daily` (src/analysis_module.py lines 358-386):
for each day of the production grouping also present in the consumption
grouping, `Σ min(p, c)` over `zip(prod_values, cons_values)` divided by
`Σ prod_values`, guarded to 0 when the day's total production is 0. -/
def calculate_self_consumption_daily (hourly_production hourly_consumption : List (DT × ℚ)) :
    List ((Int × Int × Int) × ℚ) :=
  let grouped_production := groupByDay hourly_production
  let grouped_consumption := groupByDay hourly_consumption
  (grouped_production.filter (fun kv => (alookup grouped_consumption kv.1).isSome)).map
    (fun kv =>
      let prod_values := kv.2
      let cons_values := (alookup grouped_consumption kv.1).getD []
      let sum_min_prod_load := (List.zipWith min prod_values cons_values).sum
      let sum_total_production := prod_values.sum
      (kv.1, if sum_total_production ≠ 0 then sum_min_prod_load / sum_total_production else 0))

/-- The function `calculate_self_sufficiency_daily` (src/analysis_module.py lines 413-441):
as above but divided by `Σ cons_values`, guarded to 0 when the day's total
consumption is 0. -/
def calculate_self_sufficiency_daily (hourly_production hourly_consumption : List (DT × ℚ)) :
    List ((Int × Int × Int) × ℚ) :=
  let grouped_production := groupByDay hourly_production
  let grouped_consumption := groupByDay hourly_consumption
  (grouped_production.filter (fun kv => (alookup grouped_consumption kv.1).isSome)).map
    (fun kv =>
      let prod_values := kv.2
      let cons_values := (alookup grouped_consumption kv.1).getD []
      let sum_min_prod_load := (List.zipWith min prod_values cons_values).sum
      let sum_total_consumption := cons_values.sum
      (kv.1, if sum_total_consumption ≠ 0 then sum_min_prod_load / sum_total_consumption else 0))

/-- The function `calculate_neeg_daily` (src/analysis_module.py lines 468-495): for each day
in both groupings, `Σ |p - c|` over `zip(prod_values, cons_values)`, divided by
1000. -/
def calculate_neeg_daily (hourly_production hourly_consumption : List (DT × ℚ)) :
    List ((Int × Int × Int) × ℚ) :=
  let grouped_production := groupByDay hourly_production
  let grouped_consumption := groupByDay hourly_consumption
  (grouped_production.filter (fun kv => (alookup grouped_consumption kv.1).isSome)).map
    (fun kv =>
      let prod_values := kv.2
      let cons_values := (alookup grouped_consumption kv.1).getD []
      (kv.1, (List.zipWith (fun p c => |p - c|) prod_values cons_values).sum / 1000))

/-- The function `calculate_total_self_consumption` (src/analysis_module.py lines 388-390):
`sum(daily.values()) / len(daily)`, with Python's division raising
`ZeroDivisionError` (`none`) on an empty dict. -/
def calculate_total_self_consumption
    (daily_self_consumption : List ((Int × Int × Int) × ℚ)) : Option ℚ :=
  pydiv (daily_self_consumption.map Prod.snd).sum (daily_self_consumption.length)

/-- The function `calculate_total_self_sufficiency` (src/analysis_module.py lines 443-445):
same aggregate mean, same unguarded division. -/
def calculate_total_self_sufficiency
    (daily_self_sufficiency : List ((Int × Int × Int) × ℚ)) : Option ℚ :=
  pydiv (daily_self_sufficiency.map Prod.snd).sum (daily_self_sufficiency.length)

/-- The whole-horizon self-sufficiency computed inside `npv_function`
(src/main.py lines 267-270): `Σ min(cons(t), prod.get(t, 0))` over the
consumption hours divided — unguarded — by `Σ cons`. -/
def self_sufficiency_total (hourly_production hourly_consumption : List (DT × ℚ)) :
    Option ℚ :=
  let sum_total_consumption := (hourly_consumption.map Prod.snd).sum
  let sum_min_prod_load := (hourly_consumption.map
    (fun tv => min tv.2 ((alookup hourly_production tv.1).getD 0))).sum
  pydiv sum_min_prod_load sum_total_consumption

/-! ### C6: the horizon extender -/

/-- Gregorian leap-year test (what Python's `datetime` uses to validate
`replace(year=...)`). -/
def isLeapYear (y : Int) : Bool :=
  y % 4 == 0 && (!(y % 100 == 0) || y % 400 == 0)

/-- The method `time.replace(year=y)`: rewrites only the year field; raises `ValueError`
(modelled `none`) exactly when the source date is Feb 29 and the target year
is not a leap year. -/
def pyReplaceYear (t : DT) (y : Int) : Option DT :=
  if t.month = 2 ∧ t.day = 29 ∧ isLeapYear y = false then none
  else some { t with year := y }

/-- The inner loop of `extend_data_to_years` for one year offset: insert every
entry of the reference series into the accumulated dict under its
year-rewritten timestamp `time.replace(year=time.year + year)`. -/
def insertSeries (offset : Int) :
    List (DT × ℚ) → List (DT × ℚ) → Option (List (DT × ℚ))
  | [], acc => some acc
  | (t, v) :: rest, acc =>
      (pyReplaceYear t (t.year + offset)).bind (fun new_time =>
        insertSeries offset rest (dictSet acc new_time v))

/-- The outer loop of `extend_data_to_years` over the offsets `0..years-1`. -/
def extendFrom (m : List (DT × ℚ)) :
    List Nat → List (DT × ℚ) → Option (List (DT × ℚ))
  | [], acc => some acc
  | y :: rest, acc =>
      (insertSeries (y : Int) m acc).bind (fun acc' => extendFrom m rest acc')

/-- One series' half of `extend_data_to_years` (src/main.py lines 101-118). -/
def extend_series (m : List (DT × ℚ)) (years : Nat) : Option (List (DT × ℚ)) :=
  extendFrom m (List.range years) []

/-- The function `extend_data_to_years` (src/main.py lines 101-118): replicate both hourly
series over the horizon by rewriting each timestamp's year field per offset.
(The source interleaves the production and consumption inserts inside one
offset loop; the resulting pair of dicts is the same.) -/
def extend_data_to_years (hourly_production hourly_consumption : List (DT × ℚ))
    (years : Nat) : Option (List (DT × ℚ) × List (DT × ℚ)) :=
  match extend_series hourly_production years, extend_series hourly_consumption years with
  | some p, some c => some (p, c)
  | _, _ => none

/-! ### Lemmas, claim theorems, witnesses and counterexamples -/

/-- C1 counterexample: the claim says every deficit `d ≥ 0.10` lands in the
top step of the table ("deficit ≥ 0.10 gives the highest fixed penalty"), so the
two inputs below — deficits `0.2` and exactly `0.1` with the same constraint
parameters and panel counts — would have to produce the same penalty.  The code
tests `self_sufficiency < min_self_sufficiency - 0.1` strictly, so the deficit
of exactly `0.1` falls through to the next step (450000 instead of 500000). -/
theorem claim_C1_counterexample :
    npv_function_penalty 0 0 0 10 (1/2) (3/10) 0 ≠
      npv_function_penalty 0 0 0 10 (1/2) (2/5) 0 := by
  norm_num [npv_function_penalty]

set_option maxHeartbeats 2000000 in
/-- C1 (amended): the objective's return value follows the ordered ladder with
first match winning — panel-count overflow gives the fixed 1000000 penalty
independent of `npv` and `ss`; otherwise the deficit `d = min_ss - ss` maps
through the step table with strict thresholds `d > 0.10, 0.05, 0.03, 0.02, 0.01`
(penalties 500000, 450000, 400000, 350000, 300000), then the linear penalty
`250000 + d·1000000` for `0 < d ≤ 0.01`, and `-npv` when `d ≤ 0`. -/
theorem claim_C1_amended (nl ns nh mp : Int) (mss ss npv : ℚ) :
    npv_function_penalty nl ns nh mp mss ss npv =
      penaltyTableSpec (nl + ns + nh) mp mss ss npv := by
  unfold npv_function_penalty penaltyTableSpec
  split_ifs <;> first | rfl | linarith

theorem get_cons_eq_nil (name : String) :
    ∀ rows : List SampleRow, rows.length < 6 → get_cons_by_constype name rows = []
  | [], _ => rfl
  | [_], _ => rfl
  | [_, _], _ => rfl
  | [_, _, _], _ => rfl
  | [_, _, _, _], _ => rfl
  | [_, _, _, _, _], _ => rfl
  | _ :: _ :: _ :: _ :: _ :: _ :: _, h => by simp at h; omega

theorem get_cons_length (name : String) :
    ∀ rows : List SampleRow, (get_cons_by_constype name rows).length = rows.length / 6
  | [] => by simp [get_cons_by_constype]
  | [_] => by simp [get_cons_by_constype]
  | [_, _] => by simp [get_cons_by_constype]
  | [_, _, _] => by simp [get_cons_by_constype]
  | [_, _, _, _] => by simp [get_cons_by_constype]
  | [_, _, _, _, _] => by simp [get_cons_by_constype]
  | r1 :: r2 :: r3 :: r4 :: r5 :: r6 :: rest => by
      have ih := get_cons_length name rest
      simp only [get_cons_by_constype, List.length_cons, ih]
      omega

theorem get_cons_get? (name : String) :
    ∀ (k : Nat) (pre rest : List SampleRow) (r1 r2 r3 r4 r5 r6 : SampleRow),
      pre.length = 6 * k →
      (get_cons_by_constype name
          (pre ++ r1 :: r2 :: r3 :: r4 :: r5 :: r6 :: rest)).get? k =
        some ⟨r1.appliance, name, r6.epoch,
          r1.value + r2.value + r3.value + r4.value + r5.value + r6.value⟩ := by
  intro k
  induction k with
  | zero =>
      intro pre rest r1 r2 r3 r4 r5 r6 hpre
      have hnil : pre = [] := List.eq_nil_of_length_eq_zero (by omega)
      subst hnil
      rfl
  | succ k ih =>
      intro pre rest r1 r2 r3 r4 r5 r6 hpre
      match pre, hpre with
      | p1 :: p2 :: p3 :: p4 :: p5 :: p6 :: pre', hpre =>
          have hpre' : pre'.length = 6 * k := by simp at hpre; omega
          simpa only [List.cons_append, get_cons_by_constype, List.get?_cons_succ] using
            ih pre' rest r1 r2 r3 r4 r5 r6 hpre'
      | [], hpre => simp at hpre <;> omega
      | [_], hpre => simp at hpre <;> omega
      | [_, _], hpre => simp at hpre <;> omega
      | [_, _, _], hpre => simp at hpre <;> omega
      | [_, _, _, _], hpre => simp at hpre <;> omega
      | [_, _, _, _, _], hpre => simp at hpre <;> omega

/-- C5: the aggregator emits one entry per complete consecutive group of six
samples (so the output length is `⌊n/6⌋` and a trailing group of fewer than six
samples produces nothing), and the `k`-th output entry carries the sixth
sample's timestamp — not the first's — and the exact sum of the six sample
values of the `k`-th group. -/
theorem claim_C5 (name : String) (pre rest : List SampleRow)
    (r1 r2 r3 r4 r5 r6 : SampleRow) (k : Nat) (hpre : pre.length = 6 * k) :
    (∀ rows : List SampleRow,
        (get_cons_by_constype name rows).length = rows.length / 6) ∧
    (get_cons_by_constype name
        (pre ++ r1 :: r2 :: r3 :: r4 :: r5 :: r6 :: rest)).get? k =
      some ⟨r1.appliance, name, r6.epoch,
        r1.value + r2.value + r3.value + r4.value + r5.value + r6.value⟩ :=
  ⟨get_cons_length name, get_cons_get? name k pre rest r1 r2 r3 r4 r5 r6 hpre⟩

/-- C5 witness: a concrete run on eight samples — the second complete group is
reported with its sixth timestamp and summed value, and the two trailing
samples are dropped. -/
theorem claim_C5_witness :
    (∀ rows : List SampleRow,
        (get_cons_by_constype "TV" rows).length = rows.length / 6) ∧
    (get_cons_by_constype "TV"
        ([⟨7, 10, 1⟩, ⟨7, 20, 2⟩, ⟨7, 30, 3⟩, ⟨7, 40, 4⟩, ⟨7, 50, 5⟩, ⟨7, 60, 6⟩] ++
          ⟨7, 70, 7⟩ :: ⟨7, 80, 8⟩ :: ⟨7, 90, 9⟩ :: ⟨7, 100, 10⟩ :: ⟨7, 110, 11⟩ ::
            ⟨7, 120, 12⟩ :: [⟨7, 130, 13⟩, ⟨7, 140, 14⟩])).get? 1 =
      some ⟨7, "TV", 120, 7 + 8 + 9 + 10 + 11 + 12⟩ :=
  claim_C5 "TV" _ _ _ _ _ _ _ _ 1 rfl

set_option maxRecDepth 8000 in
theorem npvLoop_spec (monthly_costs : List ((Int × Int) × (ℝ × ℝ))) (OpEX r : ℝ) :
    ∀ (ks : List (Int × Int)) (t₀ : Nat) (a : ℝ),
      npvLoop monthly_costs OpEX r ks t₀ a =
        (a + ∑ i ∈ Finset.range ks.length,
            (monthSavings monthly_costs (ks.getD i (0, 0)) - OpEX / 12) / discFactor r (t₀ + i),
         (List.range ks.length).map (fun j =>
            (ks.getD j (0, 0),
             a + ∑ i ∈ Finset.range (j + 1),
                (monthSavings monthly_costs (ks.getD i (0, 0)) - OpEX / 12) /
                  discFactor r (t₀ + i)))) := by
  intro ks
  induction ks with
  | nil => intro t₀ a; simp [npvLoop]
  | cons k ks' ih =>
      intro t₀ a
      have hs : ∀ i : Nat,
          (monthSavings monthly_costs ((k :: ks').getD (i + 1) (0, 0)) - OpEX / 12) /
              discFactor r (t₀ + (i + 1)) =
            (monthSavings monthly_costs (ks'.getD i (0, 0)) - OpEX / 12) /
              discFactor r ((t₀ + 1) + i) := by
        intro i
        have h : t₀ + (i + 1) = (t₀ + 1) + i := by omega
        rw [List.getD_cons_succ, h]
      simp only [npvLoop, ih]
      rw [List.length_cons, List.range_succ_eq_map, List.map_cons, List.map_map]
      simp only [Prod.mk.injEq, List.cons.injEq, eq_self_iff_true, true_and]
      refine ⟨?_, ?_, ?_⟩
      · rw [Finset.sum_range_succ', Finset.sum_congr rfl (fun i _ => hs i)]
        simp only [List.getD_cons_zero, Nat.add_zero, monthSavings]
        ring
      · simp [monthSavings]
      · refine List.map_congr_left (fun j _ => ?_)
        simp only [Function.comp_apply, List.getD_cons_succ, Prod.mk.injEq, eq_self_iff_true,
          true_and]
        conv_rhs => rw [Finset.sum_range_succ']
        rw [Finset.sum_congr rfl (fun i _ => hs i)]
        simp only [List.getD_cons_zero, Nat.add_zero, monthSavings]
        ring

/-- C3: `calculate_npv` computes the claimed recurrence — operating expenditure
is `0.03·CapEX`, the accumulator starts at `-CapEX`, month `t = i + 1` (taken
over the month keys in ascending `(year, month)` order, a permutation of the
input keys) contributes `(costWithoutPV - costWithPV - 0.03·CapEX/12)` divided
by `(1+r)^(i/12)`, the first month is undiscounted (its trace entry is exactly
`-CapEX` plus the raw first-month term, with no discount factor), and the
function returns the final scalar together with the running per-month trace. -/
theorem claim_C3 (monthly_costs : List ((Int × Int) × (ℝ × ℝ))) (CapEX r : ℝ) (Y : Nat) :
    (calculate_npv monthly_costs CapEX r Y).1 =
      -CapEX + ∑ i ∈ Finset.range (sortedMonths monthly_costs).length,
        npvTerm monthly_costs CapEX r (sortedMonths monthly_costs) i ∧
    (calculate_npv monthly_costs CapEX r Y).2 =
      (List.range (sortedMonths monthly_costs).length).map (fun j =>
        ((sortedMonths monthly_costs).getD j (0, 0),
          -CapEX + ∑ i ∈ Finset.range (j + 1),
            npvTerm monthly_costs CapEX r (sortedMonths monthly_costs) i)) ∧
    (calculate_npv monthly_costs CapEX r Y).2.head? =
      ((sortedMonths monthly_costs).head?).map (fun k =>
        (k, -CapEX + (monthSavings monthly_costs k - 0.03 * CapEX / 12))) ∧
    List.Pairwise (fun a b => ymLE a b = true) (sortedMonths monthly_costs) ∧
    (sortedMonths monthly_costs).Perm (keys monthly_costs) := by
  have hterm : ∀ i : Nat,
      (monthSavings monthly_costs ((sortedMonths monthly_costs).getD i (0, 0)) -
          0.03 * CapEX / 12) / discFactor r (1 + i) =
        npvTerm monthly_costs CapEX r (sortedMonths monthly_costs) i := by
    intro i
    have h : (((1 + i : Nat) : ℝ) - 1) / 12 = (i : ℝ) / 12 := by push_cast; ring
    rw [npvTerm, discFactor, h]
  have hmain := npvLoop_spec monthly_costs (0.03 * CapEX) r (sortedMonths monthly_costs) 1 (-CapEX)
  have h2 : (calculate_npv monthly_costs CapEX r Y).2 =
      (List.range (sortedMonths monthly_costs).length).map (fun j =>
        ((sortedMonths monthly_costs).getD j (0, 0),
          -CapEX + ∑ i ∈ Finset.range (j + 1),
            npvTerm monthly_costs CapEX r (sortedMonths monthly_costs) i)) := by
    unfold calculate_npv
    rw [hmain]
    dsimp only
    refine List.map_congr_left (fun j _ => ?_)
    congr 1
    congr 1
    exact Finset.sum_congr rfl (fun i _ => hterm i)
  refine ⟨?_, h2, ?_, ?_, ?_⟩
  · unfold calculate_npv
    rw [hmain]
    dsimp only
    congr 1
    exact Finset.sum_congr rfl (fun i _ => hterm i)
  · rw [h2]
    rcases hks : sortedMonths monthly_costs with _ | ⟨k, ks'⟩
    · simp
    · simp [List.range_succ_eq_map, npvTerm, Real.rpow_zero]
  · refine List.sorted_mergeSort ?_ ?_ (keys monthly_costs)
    · intro a b c hab hbc
      simp only [ymLE, decide_eq_true_eq] at hab hbc ⊢
      omega
    · intro a b
      simp only [ymLE, Bool.or_eq_true, decide_eq_true_eq]
      omega
  · exact List.mergeSort_perm (keys monthly_costs) ymLE

/-- C9: the financial evaluator is deterministic — `calculate_npv` reads
nothing but its four arguments (no ambient or random state appears in its
body), so two calls with identical monthly cost mappings, capital
expenditure, discount rate and horizon return the identical scalar NPV and the
identical per-month trace. -/
theorem claim_C9 (m₁ m₂ : List ((Int × Int) × (ℝ × ℝ))) (C₁ C₂ r₁ r₂ : ℝ) (Y₁ Y₂ : Nat)
    (hm : m₁ = m₂) (hC : C₁ = C₂) (hr : r₁ = r₂) (hY : Y₁ = Y₂) :
    calculate_npv m₁ C₁ r₁ Y₁ = calculate_npv m₂ C₂ r₂ Y₂ := by
  rw [hm, hC, hr, hY]

/-- C9 witness: determinism at a concrete one-month input. -/
theorem claim_C9_witness :
    calculate_npv [((1998, 3), (10, 5))] 100 (1 / 20) 5 =
      calculate_npv [((1998, 3), (10, 5))] 100 (1 / 20) 5 :=
  claim_C9 [((1998, 3), (10, 5))] [((1998, 3), (10, 5))] 100 100 (1 / 20) (1 / 20) 5 5
    rfl rfl rfl rfl

theorem alookup_ensureKey {α : Type} [DecidableEq α] (m : List (α × ℚ)) (k k' : α) :
    alookup (ensureKey m k) k' =
      if k = k' then some ((alookup m k).getD 0) else alookup m k' := by
  unfold ensureKey
  induction m with
  | nil => by_cases h : k = k' <;> simp [alookup, h]
  | cons a rest ih =>
      by_cases hak : a.1 = k
      · by_cases hak' : a.1 = k' <;> simp [alookup, hak, hak'] <;> simp_all [alookup]
      · by_cases hak' : a.1 = k'
        · have hkk' : ¬ k = k' := fun h => hak (hak' ▸ h ▸ rfl)
          have hk'k : ¬ k' = k := fun h => hkk' h.symm
          rcases h : alookup rest k with _ | w <;>
            simp [alookup, h, hak, hak', hkk', hk'k]
        · simp only [alookup, hak, hak', if_false] at ih ⊢
          rcases h : alookup rest k with _ | v
          · simpa [alookup, h, hak, hak'] using by simpa [h] using ih
          · simpa [alookup, h, hak, hak'] using by simpa [h] using ih

theorem alookup_dictAdd {α : Type} [DecidableEq α] (m : List (α × ℚ)) (k k' : α) (v : ℚ) :
    alookup (dictAdd m k v) k' =
      if k = k' then some ((alookup m k).getD 0 + v) else alookup m k' := by
  induction m with
  | nil => by_cases h : k = k' <;> simp [dictAdd, alookup, h]
  | cons a rest ih =>
      by_cases hak : a.1 = k
      · by_cases hak' : a.1 = k'
        · simp [dictAdd, alookup, hak, hak', hak ▸ hak']
        · have : ¬ k = k' := fun h => hak' (hak.trans h)
          simp [dictAdd, alookup, hak, hak', this]
      · by_cases hak' : a.1 = k'
        · have hkk' : ¬ k = k' := fun h => hak (hak' ▸ h ▸ rfl)
          have hk'k : ¬ k' = k := fun h => hkk' h.symm
          simp [dictAdd, alookup, hak, hak', hkk', hk'k]
        · simp [dictAdd, alookup, hak, hak', ih]

theorem mem_keys_iff_alookup {α β : Type} [DecidableEq α] :
    ∀ (m : List (α × β)) (p : α), p ∈ keys m ↔ (alookup m p).isSome := by
  intro m
  induction m with
  | nil => intro p; simp [keys, alookup]
  | cons a rest ih =>
      intro p
      by_cases h : a.1 = p
      · simp [keys, alookup, h]
      · have h' : ¬ p = a.1 := fun he => h he.symm
        have ih' := ih p
        simp only [keys] at ih' ⊢
        simp [alookup, h, h', ih']

theorem alookup_of_mem_nodup {α β : Type} [DecidableEq α] :
    ∀ (m : List (α × β)), (keys m).Nodup → ∀ kv ∈ m, alookup m kv.1 = some kv.2 := by
  intro m
  induction m with
  | nil => intro _ kv h; simp at h
  | cons a rest ih =>
      intro hnd kv hkv
      simp only [keys, List.map_cons, List.nodup_cons] at hnd
      rcases List.mem_cons.mp hkv with rfl | hmem
      · simp [alookup]
      · have hne : ¬ a.1 = kv.1 := by
          intro he
          exact hnd.1 (he ▸ (List.mem_map.mpr ⟨kv, hmem, rfl⟩))
        simpa [alookup, hne] using ih hnd.2 kv hmem

theorem keys_ensureKey {α : Type} [DecidableEq α] (m : List (α × ℚ)) (k : α) :
    keys (ensureKey m k) =
      if (alookup m k).isSome then keys m else keys m ++ [k] := by
  unfold ensureKey
  split <;> simp [keys]

theorem keys_dictAdd {α : Type} [DecidableEq α] :
    ∀ (m : List (α × ℚ)) (k : α) (v : ℚ),
      keys (dictAdd m k v) =
        if (alookup m k).isSome then keys m else keys m ++ [k] := by
  intro m
  induction m with
  | nil => intro k v; simp [dictAdd, alookup, keys]
  | cons a rest ih =>
      intro k v
      by_cases hak : a.1 = k
      · simp [dictAdd, alookup, keys, hak]
      · have ih' := ih k v
        simp only [keys] at ih'
        rcases h : alookup rest k with _ | w <;>
          simp [dictAdd, alookup, keys, hak, h, ih']

theorem mcStep_fst_lookup (prod : List (DT × ℚ)) (g i : List ((Int × Int) × ℚ))
    (tc : DT × ℚ) (p : Int × Int) :
    alookup ((mcStep prod (g, i) tc).1) p =
      if ym tc.1 = p then
        some ((alookup g p).getD 0 + gridContrib tc.2 ((alookup prod tc.1).getD 0))
      else alookup g p := by
  by_cases hc : tc.2 > (alookup prod tc.1).getD 0 <;>
    by_cases hym : ym tc.1 = p <;>
      simp [mcStep, hc, hym, alookup_dictAdd, alookup_ensureKey, gridContrib]

theorem mcStep_snd_lookup (prod : List (DT × ℚ)) (g i : List ((Int × Int) × ℚ))
    (tc : DT × ℚ) (p : Int × Int) :
    alookup ((mcStep prod (g, i) tc).2) p =
      if ym tc.1 = p then
        some ((alookup i p).getD 0 + injContrib tc.2 ((alookup prod tc.1).getD 0))
      else alookup i p := by
  by_cases hc : tc.2 > (alookup prod tc.1).getD 0 <;>
    by_cases hym : ym tc.1 = p <;>
      simp [mcStep, hc, hym, alookup_dictAdd, alookup_ensureKey, injContrib]

theorem gridTotal_cons (prod : List (DT × ℚ)) (tc : DT × ℚ) (l : List (DT × ℚ))
    (p : Int × Int) :
    gridTotal prod (tc :: l) p =
      (if ym tc.1 = p then gridContrib tc.2 ((alookup prod tc.1).getD 0) else 0) +
        gridTotal prod l p := by
  simp [gridTotal]

theorem injTotal_cons (prod : List (DT × ℚ)) (tc : DT × ℚ) (l : List (DT × ℚ))
    (p : Int × Int) :
    injTotal prod (tc :: l) p =
      (if ym tc.1 = p then injContrib tc.2 ((alookup prod tc.1).getD 0) else 0) +
        injTotal prod l p := by
  simp [injTotal]

theorem mcFold_lookup (prod : List (DT × ℚ)) :
    ∀ (l : List (DT × ℚ)) (g i : List ((Int × Int) × ℚ)) (p : Int × Int),
      alookup ((l.foldl (mcStep prod) (g, i)).1) p =
        (if (alookup g p).isSome ∨ (∃ tc ∈ l, ym tc.1 = p) then
          some ((alookup g p).getD 0 + gridTotal prod l p) else none) ∧
      alookup ((l.foldl (mcStep prod) (g, i)).2) p =
        (if (alookup i p).isSome ∨ (∃ tc ∈ l, ym tc.1 = p) then
          some ((alookup i p).getD 0 + injTotal prod l p) else none) := by
  intro l
  induction l with
  | nil =>
      intro g i p
      refine ⟨?_, ?_⟩
      · rcases h : alookup g p with _ | w <;> simp [gridTotal, h]
      · rcases h : alookup i p with _ | w <;> simp [injTotal, h]
  | cons tc l ih =>
      intro g i p
      rw [List.foldl_cons]
      obtain ⟨g', i', hgi⟩ : ∃ g' i', mcStep prod (g, i) tc = (g', i') := ⟨_, _, rfl⟩
      have hstep1 : alookup g' p = _ := hgi ▸ mcStep_fst_lookup prod g i tc p
      have hstep2 : alookup i' p = _ := hgi ▸ mcStep_snd_lookup prod g i tc p
      rw [hgi]
      obtain ⟨ih1, ih2⟩ := ih g' i' p
      rw [gridTotal_cons, injTotal_cons]
      have hcons : ∀ hym : ¬ ym tc.1 = p,
          ((∃ x ∈ tc :: l, ym x.1 = p) ↔ (∃ x ∈ l, ym x.1 = p)) := by
        intro hym
        rw [List.exists_mem_cons_iff]
        simp [hym]
      constructor
      · rw [ih1, hstep1]
        by_cases hym : ym tc.1 = p
        · simp [hym, List.exists_mem_cons_iff, add_assoc]
        · simp only [if_neg hym, zero_add]
          by_cases hc2 : (alookup g p).isSome = true ∨ ∃ x ∈ l, ym x.1 = p
          · rw [if_pos hc2, if_pos (hc2.imp id (hcons hym).mpr)]
          · rw [if_neg hc2, if_neg (fun hh => hc2 (hh.imp id (hcons hym).mp))]
      · rw [ih2, hstep2]
        by_cases hym : ym tc.1 = p
        · simp [hym, List.exists_mem_cons_iff, add_assoc]
        · simp only [if_neg hym, zero_add]
          by_cases hc2 : (alookup i p).isSome = true ∨ ∃ x ∈ l, ym x.1 = p
          · rw [if_pos hc2, if_pos (hc2.imp id (hcons hym).mpr)]
          · rw [if_neg hc2, if_neg (fun hh => hc2 (hh.imp id (hcons hym).mp))]

theorem mcStep_fst_keys (prod : List (DT × ℚ)) (g i : List ((Int × Int) × ℚ))
    (tc : DT × ℚ) :
    keys ((mcStep prod (g, i) tc).1) =
      if (alookup g (ym tc.1)).isSome then keys g else keys g ++ [ym tc.1] := by
  by_cases hc : tc.2 > (alookup prod tc.1).getD 0 <;>
    simp [mcStep, hc, keys_dictAdd, keys_ensureKey, alookup_ensureKey]

theorem mcFold_fst_keys_nodup (prod : List (DT × ℚ)) :
    ∀ (l : List (DT × ℚ)) (g i : List ((Int × Int) × ℚ)),
      (keys g).Nodup → (keys ((l.foldl (mcStep prod) (g, i)).1)).Nodup := by
  intro l
  induction l with
  | nil => intro g i h; exact h
  | cons tc l ih =>
      intro g i hnd
      rw [List.foldl_cons]
      obtain ⟨g', i', hgi⟩ : ∃ g' i', mcStep prod (g, i) tc = (g', i') := ⟨_, _, rfl⟩
      rw [hgi]
      refine ih g' i' ?_
      have hk : keys g' = _ := hgi ▸ mcStep_fst_keys prod g i tc
      rw [hk]
      rcases h : alookup g (ym tc.1) with _ | w
      · have : ym tc.1 ∉ keys g := by
          rw [mem_keys_iff_alookup, h]
          simp
        simp [List.nodup_append, hnd, this]
      · simp [hnd]

theorem nonneg_ensureKey {α : Type} [DecidableEq α] (m : List (α × ℚ)) (k : α)
    (hm : ∀ e ∈ m, 0 ≤ e.2) : ∀ e ∈ ensureKey m k, 0 ≤ e.2 := by
  intro e he
  unfold ensureKey at he
  split at he
  · exact hm e he
  · rcases List.mem_append.mp he with h | h
    · exact hm e h
    · simp only [List.mem_singleton] at h
      simp [h]

theorem nonneg_dictAdd {α : Type} [DecidableEq α] :
    ∀ (m : List (α × ℚ)) (k : α) (v : ℚ), (∀ e ∈ m, 0 ≤ e.2) → 0 ≤ v →
      ∀ e ∈ dictAdd m k v, 0 ≤ e.2 := by
  intro m
  induction m with
  | nil =>
      intro k v _ hv e he
      simp only [dictAdd, List.mem_singleton] at he
      simp [he, hv]
  | cons a rest ih =>
      intro k v hm hv e he
      by_cases hak : a.1 = k
      · simp only [dictAdd, hak, if_true] at he
        rcases List.mem_cons.mp he with rfl | h
        · have h1 : 0 ≤ a.2 := hm a (List.mem_cons_self a rest)
          simpa using add_nonneg h1 hv
        · exact hm e (List.mem_cons_of_mem a h)
      · simp only [dictAdd, hak, if_false] at he
        rcases List.mem_cons.mp he with rfl | h
        · exact hm a (List.mem_cons_self a rest)
        · exact ih k v (fun x hx => hm x (List.mem_cons_of_mem a hx)) hv e h

theorem mcFold_nonneg (prod : List (DT × ℚ)) :
    ∀ (l : List (DT × ℚ)) (g i : List ((Int × Int) × ℚ)),
      (∀ e ∈ g, 0 ≤ e.2) → (∀ e ∈ i, 0 ≤ e.2) →
      (∀ e ∈ (l.foldl (mcStep prod) (g, i)).1, 0 ≤ e.2) ∧
      (∀ e ∈ (l.foldl (mcStep prod) (g, i)).2, 0 ≤ e.2) := by
  intro l
  induction l with
  | nil => intro g i hg hi; exact ⟨hg, hi⟩
  | cons tc l ih =>
      intro g i hg hi
      rw [List.foldl_cons]
      unfold mcStep
      by_cases hc : tc.2 > (alookup prod tc.1).getD 0 <;> simp only [hc, if_true, if_false]
      · refine ih _ _ ?_ (nonneg_ensureKey i (ym tc.1) hi)
        refine nonneg_dictAdd _ (ym tc.1) _ (nonneg_ensureKey g (ym tc.1) hg) ?_
        have : 0 < tc.2 - (alookup prod tc.1).getD 0 := by linarith
        positivity
      · refine ih _ _ (nonneg_ensureKey g (ym tc.1) hg) ?_
        refine nonneg_dictAdd _ (ym tc.1) _ (nonneg_ensureKey i (ym tc.1) hi) ?_
        have h0 : 0 ≤ (alookup prod tc.1).getD 0 - tc.2 := by linarith
        positivity

theorem alookup_mapVal {α β γ : Type} [DecidableEq α] (F : α → β → γ) :
    ∀ (m : List (α × β)) (p : α),
      alookup (m.map (fun kv => (kv.1, F kv.1 kv.2))) p = (alookup m p).map (F p) := by
  intro m
  induction m with
  | nil => intro p; rfl
  | cons a rest ih =>
      intro p
      by_cases h : a.1 = p <;> simp [alookup, h, ih]

theorem keys_mapVal {α β γ : Type} (F : α → β → γ) (m : List (α × β)) :
    keys (m.map (fun kv => (kv.1, F kv.1 kv.2))) = keys m := by
  simp [keys, List.map_map]

/-- C4: for every production/consumption series, `calculate_monthly_costs`
produces a dict with pairwise-distinct keys, containing a record exactly for
every `(year, month)` present in the consumption series; that month's record is
`(costWithoutPV, costWithPV)` with `costWithoutPV = (Σ month consumption)/1000
· c_grid` and `costWithPV = gridTotal · c_grid - injTotal · c_DAM`, where
`gridTotal`/`injTotal` sum, over exactly the consumption hours of that month,
the per-hour contribution `(consumption - production)/1000` to the grid bucket
when `consumption > production` and otherwise `(production - consumption)/1000`
to the injected bucket, looking up an absent production timestamp as 0. -/
theorem claim_C4 (prod cons : List (DT × ℚ)) (c_grid c_DAM : ℚ) :
    (keys (calculate_monthly_costs prod cons c_grid c_DAM)).Nodup ∧
    (∀ p : Int × Int,
      (p ∈ keys (calculate_monthly_costs prod cons c_grid c_DAM) ↔
        ∃ tc ∈ cons, ym tc.1 = p) ∧
      alookup (calculate_monthly_costs prod cons c_grid c_DAM) p =
        (if ∃ tc ∈ cons, ym tc.1 = p then
          some (monthConsSum cons p / 1000 * c_grid,
                gridTotal prod cons p * c_grid - injTotal prod cons p * c_DAM)
        else none)) := by
  constructor
  · rw [calculate_monthly_costs, keys_mapVal]
    exact mcFold_fst_keys_nodup prod cons [] [] (by simp [keys])
  · intro p
    have h1 := (mcFold_lookup prod cons [] [] p).1
    have h2 := (mcFold_lookup prod cons [] [] p).2
    simp only [alookup, Option.isSome_none, Bool.false_eq_true, false_or,
      Option.getD_none] at h1 h2
    constructor
    · rw [calculate_monthly_costs, keys_mapVal, mem_keys_iff_alookup]
      rw [show (cons.foldl (mcStep prod) ([], [])).1 = (mcBuckets prod cons).1 from rfl] at h1
      rw [h1]
      by_cases h : ∃ tc ∈ cons, ym tc.1 = p <;> simp [h]
    · rw [calculate_monthly_costs, alookup_mapVal]
      rw [show (cons.foldl (mcStep prod) ([], [])).1 = (mcBuckets prod cons).1 from rfl] at h1
      rw [show (cons.foldl (mcStep prod) ([], [])).2 = (mcBuckets prod cons).2 from rfl] at h2
      rw [h1]
      by_cases h : ∃ tc ∈ cons, ym tc.1 = p
      · simp only [h, if_true, Option.map_some', mcRecord]
        rw [h2]
        simp [h]
      · simp [h]

/-- C4 witness: a concrete two-hour, two-month run — the March 1998 record
collects the grid deficit of its single hour, and the April 1998 record the
injected surplus of its hour. -/
theorem claim_C4_witness :
    alookup (calculate_monthly_costs
        [(⟨1998, 3, 5, 0⟩, 2), (⟨1998, 4, 1, 0⟩, 10)]
        [(⟨1998, 3, 5, 0⟩, 6), (⟨1998, 4, 1, 0⟩, 4)] (1/4) (1/10)) (1998, 3) =
      (if ∃ tc ∈ [((⟨1998, 3, 5, 0⟩ : DT), (6:ℚ)), (⟨1998, 4, 1, 0⟩, 4)], ym tc.1 = ((1998 : Int), (3 : Int)) then
        some (monthConsSum [((⟨1998, 3, 5, 0⟩ : DT), (6:ℚ)), (⟨1998, 4, 1, 0⟩, 4)] (1998, 3) / 1000 * (1/4),
              gridTotal [(⟨1998, 3, 5, 0⟩, 2), (⟨1998, 4, 1, 0⟩, 10)]
                  [(⟨1998, 3, 5, 0⟩, 6), (⟨1998, 4, 1, 0⟩, 4)] (1998, 3) * (1/4) -
                injTotal [(⟨1998, 3, 5, 0⟩, 2), (⟨1998, 4, 1, 0⟩, 10)]
                  [(⟨1998, 3, 5, 0⟩, 6), (⟨1998, 4, 1, 0⟩, 4)] (1998, 3) * (1/10))
      else none) :=
  ((claim_C4 [(⟨1998, 3, 5, 0⟩, 2), (⟨1998, 4, 1, 0⟩, 10)]
      [(⟨1998, 3, 5, 0⟩, 6), (⟨1998, 4, 1, 0⟩, 4)] (1/4) (1/10)).2 (1998, 3)).2

/-- C10: with no sign assumption on the hourly values, every accumulated value
in the grid bucket dict and in the injected bucket dict is non-negative,
because each per-hour update adds `(consumption - production)/1000 > 0` to the
grid bucket exactly when `consumption > production` and otherwise
`(production - consumption)/1000 ≥ 0` to the injected bucket. -/
theorem claim_C10 (prod cons : List (DT × ℚ)) :
    (∀ e ∈ (mcBuckets prod cons).1, 0 ≤ e.2) ∧
    (∀ e ∈ (mcBuckets prod cons).2, 0 ≤ e.2) :=
  mcFold_nonneg prod cons [] [] (by simp) (by simp)

/-- C10 witness: the grid bucket entry produced by one hour consuming 5 Wh with
no production is non-negative. -/
theorem claim_C10_witness :
    (0:ℚ) ≤ (((1998:Int), (3:Int)), (5:ℚ)/1000).2 :=
  (claim_C10 [] [(⟨1998, 3, 5, 0⟩, 5)]).1 ((1998, 3), 5/1000)
    (by norm_num [mcBuckets, mcStep, ensureKey, dictAdd, alookup, ym])

theorem alookup_dictAppend {α : Type} [DecidableEq α] :
    ∀ (g : List (α × List ℚ)) (k : α) (v : ℚ) (k' : α),
      alookup (dictAppend g k v) k' =
        if k = k' then some ((alookup g k').getD [] ++ [v]) else alookup g k' := by
  intro g
  induction g with
  | nil => intro k v k'; by_cases h : k = k' <;> simp [dictAppend, alookup, h]
  | cons a rest ih =>
      intro k v k'
      by_cases hak : a.1 = k
      · by_cases hak' : a.1 = k'
        · simp [dictAppend, alookup, hak, hak', hak ▸ hak']
        · have : ¬ k = k' := fun h => hak' (hak.trans h)
          simp [dictAppend, alookup, hak, hak', this]
      · by_cases hak' : a.1 = k'
        · have hkk' : ¬ k = k' := fun h => hak (hak' ▸ h ▸ rfl)
          have hk'k : ¬ k' = k := fun h => hkk' h.symm
          simp [dictAppend, alookup, hak, hak', hkk', hk'k]
        · simp [dictAppend, alookup, hak, hak', ih]

theorem keys_dictAppend {α : Type} [DecidableEq α] :
    ∀ (g : List (α × List ℚ)) (k : α) (v : ℚ),
      keys (dictAppend g k v) =
        if (alookup g k).isSome then keys g else keys g ++ [k] := by
  intro g
  induction g with
  | nil => intro k v; simp [dictAppend, alookup, keys]
  | cons a rest ih =>
      intro k v
      by_cases hak : a.1 = k
      · simp [dictAppend, alookup, keys, hak]
      · have ih' := ih k v
        simp only [keys] at ih'
        rcases h : alookup rest k with _ | w <;>
          simp [dictAppend, alookup, keys, hak, h, ih']

theorem groupFold_lookup :
    ∀ (l : List (DT × ℚ)) (g : List ((Int × Int × Int) × List ℚ)) (d : Int × Int × Int),
      alookup (l.foldl (fun g tv => dictAppend g tv.1.date tv.2) g) d =
        if (alookup g d).isSome ∨ ∃ tv ∈ l, tv.1.date = d then
          some ((alookup g d).getD [] ++ dayValues l d)
        else none := by
  intro l
  induction l with
  | nil =>
      intro g d
      rcases h : alookup g d with _ | w <;> simp [dayValues, dayEntries, h]
  | cons tv l ih =>
      intro g d
      rw [List.foldl_cons, ih (dictAppend g tv.1.date tv.2) d, alookup_dictAppend]
      have hcons : ∀ hd : ¬ tv.1.date = d,
          ((∃ x ∈ tv :: l, x.1.date = d) ↔ (∃ x ∈ l, x.1.date = d)) := by
        intro hd
        rw [List.exists_mem_cons_iff]
        simp [hd]
      by_cases hd : tv.1.date = d
      · have hval : dayValues (tv :: l) d = tv.2 :: dayValues l d := by
          simp [dayValues, dayEntries, List.filter_cons, hd]
        rcases h : alookup g d with _ | w <;>
          simp [hd, h, hval, List.exists_mem_cons_iff]
      · have hval : dayValues (tv :: l) d = dayValues l d := by
          simp [dayValues, dayEntries, List.filter_cons, hd]
        rw [if_neg hd, hval]
        by_cases hc2 : (alookup g d).isSome = true ∨ ∃ x ∈ l, x.1.date = d
        · rw [if_pos hc2, if_pos (hc2.imp id (hcons hd).mpr)]
        · rw [if_neg hc2, if_neg (fun hh => hc2 (hh.imp id (hcons hd).mp))]

theorem groupFold_keys_nodup :
    ∀ (l : List (DT × ℚ)) (g : List ((Int × Int × Int) × List ℚ)),
      (keys g).Nodup →
      (keys (l.foldl (fun g tv => dictAppend g tv.1.date tv.2) g)).Nodup := by
  intro l
  induction l with
  | nil => intro g h; exact h
  | cons tv l ih =>
      intro g hnd
      rw [List.foldl_cons]
      refine ih _ ?_
      rw [keys_dictAppend]
      rcases h : alookup g (tv.1.date) with _ | w
      · have : tv.1.date ∉ keys g := by
          rw [mem_keys_iff_alookup, h]
          simp
        simp [List.nodup_append, hnd, this]
      · simp [hnd]

theorem groupByDay_lookup (m : List (DT × ℚ)) (d : Int × Int × Int) :
    alookup (groupByDay m) d =
      if ∃ tv ∈ m, tv.1.date = d then some (dayValues m d) else none := by
  have h := groupFold_lookup m [] d
  exact h.trans (if_congr (by simp [alookup]) (by simp [alookup]) rfl)

theorem groupByDay_keys_nodup (m : List (DT × ℚ)) : (keys (groupByDay m)).Nodup :=
  groupFold_keys_nodup m [] (by simp [keys])

theorem mem_of_alookup {α β : Type} [DecidableEq α] :
    ∀ (m : List (α × β)) (p : α) (v : β), alookup m p = some v → (p, v) ∈ m := by
  intro m
  induction m with
  | nil => intro p v h; simp [alookup] at h
  | cons a rest ih =>
      intro p v h
      by_cases hap : a.1 = p
      · rw [alookup, if_pos hap] at h
        have hv : a.2 = v := Option.some.inj h
        refine List.mem_cons.mpr (Or.inl ?_)
        rw [← hap, ← hv]
      · rw [alookup, if_neg hap] at h
        exact List.mem_cons_of_mem a (ih p v h)

theorem sc_daily_mem (prod cons : List (DT × ℚ)) (d : Int × Int × Int) (v : ℚ)
    (h : (d, v) ∈ calculate_self_consumption_daily prod cons) :
    (∃ tv ∈ prod, tv.1.date = d) ∧ (∃ tv ∈ cons, tv.1.date = d) ∧
      v = (if (dayValues prod d).sum ≠ 0 then
            (List.zipWith min (dayValues prod d) (dayValues cons d)).sum /
              (dayValues prod d).sum
          else 0) := by
  unfold calculate_self_consumption_daily at h
  simp only [List.mem_map, List.mem_filter] at h
  obtain ⟨kv, ⟨hgp, hsome⟩, heq⟩ := h
  obtain ⟨hd, hv⟩ := Prod.mk.injEq _ _ _ _ ▸ heq
  subst hd
  have hlp : alookup (groupByDay prod) kv.1 = some kv.2 :=
    alookup_of_mem_nodup _ (groupByDay_keys_nodup prod) kv hgp
  rw [groupByDay_lookup] at hlp
  rw [groupByDay_lookup] at hsome
  by_cases hpm : ∃ tv ∈ prod, tv.1.date = kv.1
  · by_cases hcm : ∃ tv ∈ cons, tv.1.date = kv.1
    · refine ⟨hpm, hcm, ?_⟩
      rw [if_pos hpm] at hlp
      have hkv2 : kv.2 = dayValues prod kv.1 := (Option.some.inj hlp).symm
      rw [← hv, hkv2, groupByDay_lookup, if_pos hcm]
      simp
    · rw [if_neg hcm] at hsome
      simp at hsome
  · rw [if_neg hpm] at hlp
    simp at hlp

theorem ss_daily_mem (prod cons : List (DT × ℚ)) (d : Int × Int × Int) (v : ℚ)
    (h : (d, v) ∈ calculate_self_sufficiency_daily prod cons) :
    (∃ tv ∈ prod, tv.1.date = d) ∧ (∃ tv ∈ cons, tv.1.date = d) ∧
      v = (if (dayValues cons d).sum ≠ 0 then
            (List.zipWith min (dayValues prod d) (dayValues cons d)).sum /
              (dayValues cons d).sum
          else 0) := by
  unfold calculate_self_sufficiency_daily at h
  simp only [List.mem_map, List.mem_filter] at h
  obtain ⟨kv, ⟨hgp, hsome⟩, heq⟩ := h
  obtain ⟨hd, hv⟩ := Prod.mk.injEq _ _ _ _ ▸ heq
  subst hd
  have hlp : alookup (groupByDay prod) kv.1 = some kv.2 :=
    alookup_of_mem_nodup _ (groupByDay_keys_nodup prod) kv hgp
  rw [groupByDay_lookup] at hlp
  rw [groupByDay_lookup] at hsome
  by_cases hpm : ∃ tv ∈ prod, tv.1.date = kv.1
  · by_cases hcm : ∃ tv ∈ cons, tv.1.date = kv.1
    · refine ⟨hpm, hcm, ?_⟩
      rw [if_pos hpm] at hlp
      have hkv2 : kv.2 = dayValues prod kv.1 := (Option.some.inj hlp).symm
      rw [← hv, hkv2, groupByDay_lookup, if_pos hcm]
      simp
    · rw [if_neg hcm] at hsome
      simp at hsome
  · rw [if_neg hpm] at hlp
    simp at hlp

theorem neeg_daily_mem (prod cons : List (DT × ℚ)) (d : Int × Int × Int) (v : ℚ)
    (h : (d, v) ∈ calculate_neeg_daily prod cons) :
    (∃ tv ∈ prod, tv.1.date = d) ∧ (∃ tv ∈ cons, tv.1.date = d) ∧
      v = (List.zipWith (fun p c => |p - c|) (dayValues prod d) (dayValues cons d)).sum /
            1000 := by
  unfold calculate_neeg_daily at h
  simp only [List.mem_map, List.mem_filter] at h
  obtain ⟨kv, ⟨hgp, hsome⟩, heq⟩ := h
  obtain ⟨hd, hv⟩ := Prod.mk.injEq _ _ _ _ ▸ heq
  subst hd
  have hlp : alookup (groupByDay prod) kv.1 = some kv.2 :=
    alookup_of_mem_nodup _ (groupByDay_keys_nodup prod) kv hgp
  rw [groupByDay_lookup] at hlp
  rw [groupByDay_lookup] at hsome
  by_cases hpm : ∃ tv ∈ prod, tv.1.date = kv.1
  · by_cases hcm : ∃ tv ∈ cons, tv.1.date = kv.1
    · refine ⟨hpm, hcm, ?_⟩
      rw [if_pos hpm] at hlp
      have hkv2 : kv.2 = dayValues prod kv.1 := (Option.some.inj hlp).symm
      rw [← hv, hkv2, groupByDay_lookup, if_pos hcm]
      simp
    · rw [if_neg hcm] at hsome
      simp at hsome
  · rw [if_neg hpm] at hlp
    simp at hlp

theorem mem_dayValues (m : List (DT × ℚ)) (d : Int × Int × Int) (x : ℚ)
    (h : x ∈ dayValues m d) : ∃ tv ∈ m, tv.2 = x := by
  unfold dayValues dayEntries at h
  obtain ⟨tv, htv, hx⟩ := List.mem_map.mp h
  exact ⟨tv, (List.mem_filter.mp htv).1, hx⟩

theorem sum_zipWith_min_le_left :
    ∀ (l1 l2 : List ℚ), (∀ x ∈ l1, 0 ≤ x) → (List.zipWith min l1 l2).sum ≤ l1.sum
  | [], _, _ => by simp
  | a :: l1, [], h => by
      simp only [List.zipWith_nil_right, List.sum_nil, List.sum_cons]
      have h0 : (0:ℚ) ≤ l1.sum :=
        List.sum_nonneg (fun x hx => h x (List.mem_cons_of_mem a hx))
      have ha : (0:ℚ) ≤ a := h a (List.mem_cons_self a l1)
      linarith
  | a :: l1, b :: l2, h => by
      simp only [List.zipWith_cons_cons, List.sum_cons]
      have ih := sum_zipWith_min_le_left l1 l2 (fun x hx => h x (List.mem_cons_of_mem a hx))
      have hmin : min a b ≤ a := min_le_left a b
      linarith

theorem sum_zipWith_min_le_right :
    ∀ (l1 l2 : List ℚ), (∀ x ∈ l2, 0 ≤ x) → (List.zipWith min l1 l2).sum ≤ l2.sum
  | [], l2, h => by
      simp only [List.zipWith_nil_left, List.sum_nil]
      exact List.sum_nonneg h
  | a :: l1, [], h => by simp
  | a :: l1, b :: l2, h => by
      simp only [List.zipWith_cons_cons, List.sum_cons]
      have ih := sum_zipWith_min_le_right l1 l2 (fun x hx => h x (List.mem_cons_of_mem b hx))
      have hmin : min a b ≤ b := min_le_right a b
      linarith

theorem sum_zipWith_min_nonneg :
    ∀ (l1 l2 : List ℚ), (∀ x ∈ l1, 0 ≤ x) → (∀ x ∈ l2, 0 ≤ x) →
      0 ≤ (List.zipWith min l1 l2).sum
  | [], _, _, _ => by simp
  | _ :: _, [], _, _ => by simp
  | a :: l1, b :: l2, h1, h2 => by
      simp only [List.zipWith_cons_cons, List.sum_cons]
      have ih := sum_zipWith_min_nonneg l1 l2
        (fun x hx => h1 x (List.mem_cons_of_mem a hx))
        (fun x hx => h2 x (List.mem_cons_of_mem b hx))
      have ha : (0:ℚ) ≤ a := h1 a (List.mem_cons_self a l1)
      have hb : (0:ℚ) ≤ b := h2 b (List.mem_cons_self b l2)
      have : (0:ℚ) ≤ min a b := le_min ha hb
      linarith

theorem zipWith_min_self : ∀ l : List ℚ, List.zipWith min l l = l
  | [] => rfl
  | a :: l => by simp [List.zipWith_cons_cons, zipWith_min_self l]

theorem zip_absdiff_sum :
    ∀ (l1 l2 : List ℚ),
      0 ≤ (List.zipWith (fun p c => |p - c|) l1 l2).sum ∧
      ((List.zipWith (fun p c => |p - c|) l1 l2).sum = 0 ↔
        ∀ pq ∈ l1.zip l2, pq.1 = pq.2)
  | [], l2 => by simp
  | a :: l1, [] => by simp
  | a :: l1, b :: l2 => by
      obtain ⟨ih0, ih⟩ := zip_absdiff_sum l1 l2
      have habs : (0:ℚ) ≤ |a - b| := abs_nonneg _
      constructor
      · simp only [List.zipWith_cons_cons, List.sum_cons]
        linarith
      · simp only [List.zipWith_cons_cons, List.sum_cons, List.zip_cons_cons,
          List.mem_cons]
        constructor
        · intro hsum
          have h1 : |a - b| = 0 ∧ (List.zipWith (fun p c => |p - c|) l1 l2).sum = 0 :=
            (add_eq_zero_iff_of_nonneg habs ih0).mp hsum
          intro pq hpq
          rcases hpq with rfl | hpq
          · have := abs_eq_zero.mp h1.1
            exact sub_eq_zero.mp this
          · exact ih.mp h1.2 pq hpq
        · intro hall
          have hab : a = b := hall (a, b) (Or.inl rfl)
          have hrest : (List.zipWith (fun p c => |p - c|) l1 l2).sum = 0 :=
            ih.mpr (fun pq hpq => hall pq (Or.inr hpq))
          simp [hab, hrest]

theorem pydiv_eq_none_iff (a b : ℚ) : pydiv a b = none ↔ b = 0 := by
  unfold pydiv
  split <;> simp_all

/-- C7: for every day present in both daily groupings, with non-negative
hourly values and a non-zero denominator (the day's total production for
self-consumption, total consumption for self-sufficiency), the stored daily
ratio lies in `[0, 1]`; and when the production series restricted to that day
equals the consumption series restricted to that day, both ratios are exactly
1 (under the same non-zero-denominator proviso — an all-zero day is guarded to
ratio 0). -/
theorem claim_C7 (prod cons : List (DT × ℚ))
    (hp : ∀ tv ∈ prod, 0 ≤ tv.2) (hc : ∀ tv ∈ cons, 0 ≤ tv.2)
    (d : Int × Int × Int) (v : ℚ) :
    ((d, v) ∈ calculate_self_consumption_daily prod cons →
      ((dayValues prod d).sum ≠ 0 → 0 ≤ v ∧ v ≤ 1) ∧
      (dayEntries prod d = dayEntries cons d → (dayValues prod d).sum ≠ 0 → v = 1)) ∧
    ((d, v) ∈ calculate_self_sufficiency_daily prod cons →
      ((dayValues cons d).sum ≠ 0 → 0 ≤ v ∧ v ≤ 1) ∧
      (dayEntries prod d = dayEntries cons d → (dayValues cons d).sum ≠ 0 → v = 1)) := by
  have hpv : ∀ x ∈ dayValues prod d, 0 ≤ x := by
    intro x hx
    obtain ⟨tv, htv, rfl⟩ := mem_dayValues prod d x hx
    exact hp tv htv
  have hcv : ∀ x ∈ dayValues cons d, 0 ≤ x := by
    intro x hx
    obtain ⟨tv, htv, rfl⟩ := mem_dayValues cons d x hx
    exact hc tv htv
  constructor
  · intro hmem
    obtain ⟨-, -, hv⟩ := sc_daily_mem prod cons d v hmem
    constructor
    · intro hden
      rw [hv, if_pos hden]
      have hnum0 : 0 ≤ (List.zipWith min (dayValues prod d) (dayValues cons d)).sum :=
        sum_zipWith_min_nonneg _ _ hpv hcv
      have hnum1 : (List.zipWith min (dayValues prod d) (dayValues cons d)).sum ≤
          (dayValues prod d).sum := sum_zipWith_min_le_left _ _ hpv
      have hdpos : 0 < (dayValues prod d).sum :=
        lt_of_le_of_ne (List.sum_nonneg hpv) (Ne.symm hden)
      exact ⟨div_nonneg hnum0 hdpos.le, (div_le_one hdpos).mpr hnum1⟩
    · intro heq hden
      have hvals : dayValues prod d = dayValues cons d := by
        unfold dayValues
        rw [heq]
      rw [hv, if_pos hden, ← hvals, zipWith_min_self, div_self hden]
  · intro hmem
    obtain ⟨-, -, hv⟩ := ss_daily_mem prod cons d v hmem
    constructor
    · intro hden
      rw [hv, if_pos hden]
      have hnum0 : 0 ≤ (List.zipWith min (dayValues prod d) (dayValues cons d)).sum :=
        sum_zipWith_min_nonneg _ _ hpv hcv
      have hnum1 : (List.zipWith min (dayValues prod d) (dayValues cons d)).sum ≤
          (dayValues cons d).sum := sum_zipWith_min_le_right _ _ hcv
      have hdpos : 0 < (dayValues cons d).sum :=
        lt_of_le_of_ne (List.sum_nonneg hcv) (Ne.symm hden)
      exact ⟨div_nonneg hnum0 hdpos.le, (div_le_one hdpos).mpr hnum1⟩
    · intro heq hden
      have hvals : dayValues prod d = dayValues cons d := by
        unfold dayValues
        rw [heq]
      rw [hv, if_pos hden, hvals, zipWith_min_self, div_self hden]

/-- C7 witness: a day whose single hour has production = consumption = 2 gives
self-consumption exactly 1, within bounds. -/
theorem claim_C7_witness : (0 ≤ (1:ℚ) ∧ (1:ℚ) ≤ 1) ∧ (1:ℚ) = 1 := by
  have h := (claim_C7 [(⟨1998, 3, 5, 0⟩, 2)] [(⟨1998, 3, 5, 0⟩, 2)]
      (by norm_num) (by norm_num) (1998, 3, 5) 1).1
    (by norm_num [calculate_self_consumption_daily, groupByDay, dictAppend, alookup,
      dayValues, dayEntries, DT.date, List.filter])
  exact ⟨h.1 (by norm_num [dayValues, dayEntries, DT.date, List.filter]),
    h.2 rfl (by norm_num [dayValues, dayEntries, DT.date, List.filter])⟩

/-- C8 counterexample: with production hours `{00: 1, 01: 2}` and single
consumption hour `{00: 1}` on the same day, the grouped value lists are
`[1, 2]` and `[1]`; the `zip` truncates to the common prefix, so the stored
daily NEEG is `|1-1|/1000 = 0` although production (2) differs from
consumption (absent, 0) at hour 01 — refuting "NEEG_day = 0 iff production
equals consumption in every hour of that day". -/
theorem claim_C8_counterexample :
    calculate_neeg_daily [(⟨1998, 3, 5, 0⟩, 1), (⟨1998, 3, 5, 1⟩, 2)]
        [(⟨1998, 3, 5, 0⟩, 1)] = [((1998, 3, 5), 0)] ∧
    (alookup [((⟨1998, 3, 5, 0⟩ : DT), (1:ℚ)), (⟨1998, 3, 5, 1⟩, 2)] ⟨1998, 3, 5, 1⟩).getD 0 ≠
      (alookup [((⟨1998, 3, 5, 0⟩ : DT), (1:ℚ))] ⟨1998, 3, 5, 1⟩).getD 0 := by
  constructor
  · norm_num [calculate_neeg_daily, groupByDay, dictAppend, alookup, DT.date, List.filter]
  · norm_num [alookup]

/-- C8 (amended): every stored daily NEEG value is non-negative, and it is 0
iff production and consumption agree at every position of the pairwise zip of
that day's grouped value lists (the zip truncates to the shorter list; when
both series carry the same hours of that day in the same order this says
production equals consumption at every hour). -/
theorem claim_C8_amended (prod cons : List (DT × ℚ)) (d : Int × Int × Int) (v : ℚ)
    (h : (d, v) ∈ calculate_neeg_daily prod cons) :
    0 ≤ v ∧
    (v = 0 ↔ ∀ pq ∈ (dayValues prod d).zip (dayValues cons d), pq.1 = pq.2) := by
  obtain ⟨-, -, hv⟩ := neeg_daily_mem prod cons d v h
  obtain ⟨h0, hiff⟩ := zip_absdiff_sum (dayValues prod d) (dayValues cons d)
  constructor
  · rw [hv]
    exact div_nonneg h0 (by norm_num)
  · rw [hv, div_eq_zero_iff]
    constructor
    · rintro (hs | h1000)
      · exact hiff.mp hs
      · norm_num at h1000
    · intro hall
      exact Or.inl (hiff.mpr hall)

/-- C8 witness: a day whose single hour has production = consumption = 3 has
NEEG 0, and the zip agreement holds. -/
theorem claim_C8_amended_witness :
    0 ≤ (0:ℚ) ∧
    ((0:ℚ) = 0 ↔ ∀ pq ∈ (dayValues [(⟨1998, 3, 5, 0⟩, 3)] (1998, 3, 5)).zip
        (dayValues [(⟨1998, 3, 5, 0⟩, 3)] (1998, 3, 5)), pq.1 = pq.2) :=
  claim_C8_amended [(⟨1998, 3, 5, 0⟩, 3)] [(⟨1998, 3, 5, 0⟩, 3)] (1998, 3, 5) 0
    (by norm_num [calculate_neeg_daily, groupByDay, dictAppend, alookup, DT.date,
      List.filter])

/-- C2 counterexample: the aggregate mean is not guarded — on empty series the
daily dict is empty and `sum(daily.values()) / len(daily)` divides by zero
(modelled `none`), so it is not true that every ratio computation in the
engine is guarded against division by zero. -/
theorem claim_C2_counterexample :
    calculate_total_self_consumption (calculate_self_consumption_daily [] []) = none := by
  norm_num [calculate_self_consumption_daily, calculate_total_self_consumption, groupByDay,
    pydiv]

/-- C2 (amended): the daily self-consumption and self-sufficiency ratios are
guarded — a day with zero denominator stores ratio 0 and the computation never
raises — but the aggregate means and the whole-horizon self-sufficiency divide
without a guard: the means raise (`none`) exactly when there are no days, and
the whole-horizon self-sufficiency raises exactly when the total consumption
is zero. -/
theorem claim_C2_amended :
    (∀ (prod cons : List (DT × ℚ)) (d : Int × Int × Int),
      (dayValues prod d).sum = 0 →
      d ∈ keys (calculate_self_consumption_daily prod cons) →
        alookup (calculate_self_consumption_daily prod cons) d = some 0) ∧
    (∀ (prod cons : List (DT × ℚ)) (d : Int × Int × Int),
      (dayValues cons d).sum = 0 →
      d ∈ keys (calculate_self_sufficiency_daily prod cons) →
        alookup (calculate_self_sufficiency_daily prod cons) d = some 0) ∧
    (∀ daily : List ((Int × Int × Int) × ℚ),
      calculate_total_self_consumption daily = none ↔ daily = []) ∧
    (∀ daily : List ((Int × Int × Int) × ℚ),
      calculate_total_self_sufficiency daily = none ↔ daily = []) ∧
    (∀ prod cons : List (DT × ℚ),
      self_sufficiency_total prod cons = none ↔ (cons.map Prod.snd).sum = 0) := by
  refine ⟨?_, ?_, ?_, ?_, ?_⟩
  · intro prod cons d hden hmem
    rw [mem_keys_iff_alookup] at hmem
    obtain ⟨v, hv⟩ := Option.isSome_iff_exists.mp hmem
    obtain ⟨-, -, hform⟩ := sc_daily_mem prod cons d v (mem_of_alookup _ _ _ hv)
    rw [hv, hform, if_neg (fun hcond => hcond hden)]
  · intro prod cons d hden hmem
    rw [mem_keys_iff_alookup] at hmem
    obtain ⟨v, hv⟩ := Option.isSome_iff_exists.mp hmem
    obtain ⟨-, -, hform⟩ := ss_daily_mem prod cons d v (mem_of_alookup _ _ _ hv)
    rw [hv, hform, if_neg (fun hcond => hcond hden)]
  · intro daily
    rw [calculate_total_self_consumption, pydiv_eq_none_iff]
    simp [List.length_eq_zero]
  · intro daily
    rw [calculate_total_self_sufficiency, pydiv_eq_none_iff]
    simp [List.length_eq_zero]
  · intro prod cons
    simp only [self_sufficiency_total]
    rw [pydiv_eq_none_iff]

/-- C2 witness: a day with zero production but non-zero consumption stores the
guarded self-consumption ratio 0 instead of raising. -/
theorem claim_C2_amended_witness :
    alookup (calculate_self_consumption_daily [(⟨1998, 3, 5, 0⟩, 0)]
        [(⟨1998, 3, 5, 0⟩, 5)]) (1998, 3, 5) = some 0 :=
  claim_C2_amended.1 [(⟨1998, 3, 5, 0⟩, 0)] [(⟨1998, 3, 5, 0⟩, 5)] (1998, 3, 5)
    (by norm_num [dayValues, dayEntries, DT.date, List.filter])
    (by norm_num [calculate_self_consumption_daily, groupByDay, dictAppend, alookup, keys,
      DT.date, List.filter])

theorem dictSet_of_not_mem {α β : Type} [DecidableEq α] :
    ∀ (acc : List (α × β)) (k : α) (v : β), k ∉ keys acc →
      dictSet acc k v = acc ++ [(k, v)]
  | [], _, _, _ => rfl
  | a :: rest, k, v, h => by
      have h1 : ¬ a.1 = k := fun he => h (by simp [keys, he])
      have h2 : k ∉ keys rest := fun hm => h (by simp [keys] at hm ⊢; exact Or.inr hm)
      simp only [dictSet, h1, if_false, List.cons_append]
      rw [dictSet_of_not_mem rest k v h2]

theorem insertSeries_spec (offset : Int) :
    ∀ (m acc : List (DT × ℚ)),
      (∀ tv ∈ m, ¬(tv.1.month = 2 ∧ tv.1.day = 29 ∧
          isLeapYear (tv.1.year + offset) = false)) →
      (∀ tv ∈ m, ({ tv.1 with year := tv.1.year + offset } : DT) ∉ keys acc) →
      ((m.map (fun tv => ({ tv.1 with year := tv.1.year + offset } : DT))).Nodup) →
      insertSeries offset m acc =
        some (acc ++ m.map (fun tv =>
          (({ tv.1 with year := tv.1.year + offset } : DT), tv.2))) := by
  intro m
  induction m with
  | nil => intro acc _ _ _; simp [insertSeries]
  | cons tv rest ih =>
      intro acc hval hfresh hnd
      obtain ⟨t, v⟩ := tv
      have hv1 := hval (t, v) (List.mem_cons_self _ _)
      have hrep : pyReplaceYear t (t.year + offset) =
          some { t with year := t.year + offset } := by
        rw [pyReplaceYear, if_neg hv1]
      rw [insertSeries, hrep, Option.some_bind]
      rw [dictSet_of_not_mem acc _ v (hfresh (t, v) (List.mem_cons_self _ _))]
      simp only [List.map_cons, List.nodup_cons] at hnd
      have hfresh' : ∀ tv' ∈ rest, ({ tv'.1 with year := tv'.1.year + offset } : DT) ∉
          keys (acc ++ [(({ t with year := t.year + offset } : DT), v)]) := by
        intro tv' htv' hmem
        simp only [keys, List.map_append, List.mem_append, List.map_cons, List.map_nil,
          List.mem_singleton] at hmem
        rcases hmem with hmem | hmem
        · exact hfresh tv' (List.mem_cons_of_mem _ htv') (by simpa [keys] using hmem)
        · exact hnd.1 (List.mem_map.mpr ⟨tv', htv', hmem⟩)
      have hrec := ih (acc ++ [(({ t with year := t.year + offset } : DT), v)])
        (fun x hx => hval x (List.mem_cons_of_mem _ hx)) hfresh' hnd.2
      rw [hrec]
      simp

theorem year_of_mem_mapped (m : List (DT × ℚ)) (off : Int) (y₀ : Int)
    (hy : ∀ tv ∈ m, tv.1.year = y₀) (x : DT)
    (hx : x ∈ m.map (fun tv => ({ tv.1 with year := tv.1.year + off } : DT))) :
    x.year = y₀ + off := by
  obtain ⟨tv, htv, rfl⟩ := List.mem_map.mp hx
  simp [hy tv htv]

theorem keys_map_entry (m : List (DT × ℚ)) (off : Int) :
    keys (m.map (fun tv => (({ tv.1 with year := tv.1.year + off } : DT), tv.2))) =
      m.map (fun tv => ({ tv.1 with year := tv.1.year + off } : DT)) := by
  simp [keys, List.map_map]

theorem mapped_keys_nodup (m : List (DT × ℚ)) (off : Int) (y₀ : Int)
    (hy : ∀ tv ∈ m, tv.1.year = y₀) (hnd : (keys m).Nodup) :
    (m.map (fun tv => ({ tv.1 with year := tv.1.year + off } : DT))).Nodup := by
  have hre : m.map (fun tv => ({ tv.1 with year := tv.1.year + off } : DT)) =
      (keys m).map (fun t => ({ t with year := t.year + off } : DT)) := by
    simp [keys, List.map_map]
  rw [hre]
  refine List.Nodup.map_on ?_ hnd
  intro t1 ht1 t2 ht2 heq
  have hy1 : t1.year = y₀ := by
    obtain ⟨tv, htv, rfl⟩ := List.mem_map.mp ht1
    exact hy tv htv
  have hy2 : t2.year = y₀ := by
    obtain ⟨tv, htv, rfl⟩ := List.mem_map.mp ht2
    exact hy tv htv
  cases t1
  cases t2
  simp_all [DT.mk.injEq]

theorem extendFrom_spec (m : List (DT × ℚ)) (y₀ : Int)
    (hy : ∀ tv ∈ m, tv.1.year = y₀)
    (hfeb : ∀ tv ∈ m, ¬(tv.1.month = 2 ∧ tv.1.day = 29))
    (hnd : (keys m).Nodup) :
    ∀ (offs : List Nat) (acc : List (DT × ℚ)),
      offs.Nodup →
      (∀ off ∈ offs, ∀ tv ∈ m,
        ({ tv.1 with year := tv.1.year + (off : Int) } : DT) ∉ keys acc) →
      extendFrom m offs acc =
        some (acc ++ offs.flatMap (fun off =>
          m.map (fun tv =>
            (({ tv.1 with year := tv.1.year + (off : Int) } : DT), tv.2)))) := by
  intro offs
  induction offs with
  | nil => intro acc _ _; simp [extendFrom]
  | cons off offs' ih =>
      intro acc hoffs hfresh
      have hins := insertSeries_spec (off : Int) m acc
        (fun tv htv => by
          have := hfeb tv htv
          tauto)
        (hfresh off (List.mem_cons_self _ _))
        (mapped_keys_nodup m (off : Int) y₀ hy hnd)
      rw [extendFrom, hins, Option.some_bind]
      simp only [List.nodup_cons] at hoffs
      have hfresh' : ∀ off' ∈ offs', ∀ tv ∈ m,
          ({ tv.1 with year := tv.1.year + (off' : Int) } : DT) ∉
            keys (acc ++ m.map (fun tv =>
              (({ tv.1 with year := tv.1.year + (off : Int) } : DT), tv.2))) := by
        intro off' hoff' tv htv hmem
        rw [keys, List.map_append] at hmem
        rcases List.mem_append.mp hmem with hmem | hmem
        · exact hfresh off' (List.mem_cons_of_mem _ hoff') tv htv (by simpa [keys] using hmem)
        · rw [← keys, keys_map_entry] at hmem
          have h1 : ({ tv.1 with year := tv.1.year + (off' : Int) } : DT).year =
              y₀ + (off : Int) := year_of_mem_mapped m (off : Int) y₀ hy _ hmem
          have h2 : tv.1.year = y₀ := hy tv htv
          simp only [h2] at h1
          have : (off' : Int) = (off : Int) := by omega
          exact hoffs.1 (by
            have := Int.ofNat_inj.mp (by exact_mod_cast this)
            exact this ▸ hoff')
      have hrec := ih (acc ++ m.map (fun tv =>
          (({ tv.1 with year := tv.1.year + (off : Int) } : DT), tv.2)))
        hoffs.2 hfresh'
      rw [hrec]
      simp

/-- C6: for a reference hourly series whose timestamps all lie in one year
`y₀` with no Feb 29 entry (so `replace(year=...)` never raises), pairwise
distinct timestamps, and horizon `Y ≥ 1`, the extender succeeds and its result
is exactly the `Y × m.length` entries obtained by rewriting each timestamp's
year to `y₀ + offset` for `offset = 0..Y-1` (month/day/hour unchanged) while
keeping the reference value; all extended timestamps are pairwise distinct, so
there are no collisions. -/
theorem claim_C6 (m : List (DT × ℚ)) (y₀ : Int) (Y : Nat)
    (hY : 1 ≤ Y) (hnd : (keys m).Nodup)
    (hy : ∀ tv ∈ m, tv.1.year = y₀)
    (hfeb : ∀ tv ∈ m, ¬(tv.1.month = 2 ∧ tv.1.day = 29)) :
    ∃ ext, extend_series m Y = some ext ∧
      ext = (List.range Y).flatMap (fun off =>
        m.map (fun tv => (({ tv.1 with year := y₀ + (off : Int) } : DT), tv.2))) ∧
      (keys ext).Nodup ∧
      ext.length = Y * m.length := by
  have hspec := extendFrom_spec m y₀ hy hfeb hnd (List.range Y) []
    (List.nodup_range Y)
    (by intro off _ tv _ hmem; simp [keys] at hmem)
  have hbody : (fun off : Nat =>
      m.map (fun tv => (({ tv.1 with year := tv.1.year + (off : Int) } : DT), tv.2))) =
      (fun off : Nat =>
      m.map (fun tv => (({ tv.1 with year := y₀ + (off : Int) } : DT), tv.2))) := by
    funext off
    refine List.map_congr_left (fun tv htv => ?_)
    rw [hy tv htv]
  have hext : extend_series m Y = some ((List.range Y).flatMap (fun off =>
      m.map (fun tv => (({ tv.1 with year := y₀ + (off : Int) } : DT), tv.2)))) := by
    rw [extend_series, hspec, List.nil_append, hbody]
  refine ⟨_, hext, rfl, ?_, ?_⟩
  · rw [keys, List.map_flatMap]
    have hinner : (fun off : Nat =>
        List.map Prod.fst (m.map (fun tv =>
          (({ tv.1 with year := y₀ + (off : Int) } : DT), tv.2)))) =
        (fun off : Nat => m.map (fun tv => ({ tv.1 with year := y₀ + (off : Int) } : DT))) := by
      funext off
      simp [List.map_map]
    rw [hinner]
    rw [List.nodup_flatMap]
    constructor
    · intro off _
      have hsame : m.map (fun tv => ({ tv.1 with year := y₀ + (off : Int) } : DT)) =
          m.map (fun tv => ({ tv.1 with year := tv.1.year + (off : Int) } : DT)) := by
        refine List.map_congr_left (fun tv htv => ?_)
        rw [hy tv htv]
      rw [hsame]
      exact mapped_keys_nodup m (off : Int) y₀ hy hnd
    · have hpw := (List.nodup_range Y)
      refine hpw.imp ?_
      intro a b hab
      intro x hxa hxb
      obtain ⟨tv1, _, rfl⟩ := List.mem_map.mp hxa
      obtain ⟨tv2, _, heq⟩ := List.mem_map.mp hxb
      have : y₀ + (b : Int) = y₀ + (a : Int) := congrArg DT.year heq
      have hba : (b : Int) = (a : Int) := by omega
      exact hab (Int.ofNat_inj.mp (by exact_mod_cast hba)).symm
  · rw [List.length_flatMap]
    have : (List.range Y).map (List.length ∘ fun off =>
        m.map (fun tv => (({ tv.1 with year := y₀ + (off : Int) } : DT), tv.2))) =
        (List.range Y).map (fun _ => m.length) := by
      refine List.map_congr_left (fun off _ => ?_)
      simp
    rw [this, List.map_const', List.sum_replicate, List.length_range, smul_eq_mul]

/-- C6 witness: a two-hour single-day March 1998 reference extended over a
2-year horizon. -/
theorem claim_C6_witness :
    ∃ ext, extend_series [((⟨1998, 3, 1, 0⟩ : DT), (5:ℚ)), (⟨1998, 3, 1, 1⟩, 7)] 2 =
        some ext ∧
      ext = (List.range 2).flatMap (fun off =>
        [((⟨1998, 3, 1, 0⟩ : DT), (5:ℚ)), (⟨1998, 3, 1, 1⟩, 7)].map
          (fun tv => (({ tv.1 with year := 1998 + (off : Int) } : DT), tv.2))) ∧
      (keys ext).Nodup ∧
      ext.length = 2 * [((⟨1998, 3, 1, 0⟩ : DT), (5:ℚ)), (⟨1998, 3, 1, 1⟩, 7)].length :=
  claim_C6 [((⟨1998, 3, 1, 0⟩ : DT), (5:ℚ)), (⟨1998, 3, 1, 1⟩, 7)] 1998 2
    (by decide) (by decide) (by decide) (by decide)

end PC
